import Mathlib

/-!
Verification development for the `swcr` repository: a source-code paginator
(`src/swcr/swcr.py`) producing PDF/DOCX page groups, and a small
Markdown-to-Word converter (`src/generate_manual.py`).

Python strings are modelled as Lean `String`; the Python string operations
used by the code (`startswith`, `endswith`, `strip`, `lstrip`, `lower`,
`replace`, `join`, slicing) are given explicit character-list semantics
matching Python's behaviour on the inputs the program uses.
-/

/-- Python `s.startswith(pat)`: `pat` is a prefix of `s` (character-wise). -/
def pyStartsWith (s pat : String) : Bool :=
  pat.data.isPrefixOf s.data

/-- Python `s.endswith(pat)`: `pat` is a suffix of `s` (character-wise). -/
def pyEndsWith (s pat : String) : Bool :=
  pat.data.isSuffixOf s.data

/-- Python `s.lstrip()`: drop leading whitespace. -/
def pyLStrip (s : String) : String :=
  String.mk (s.data.dropWhile Char.isWhitespace)

/-- Python `s.strip()`: drop leading and trailing whitespace. -/
def pyStrip (s : String) : String :=
  String.mk (((s.data.dropWhile Char.isWhitespace).reverse.dropWhile Char.isWhitespace).reverse)

/-- Python `s.lower()` (ASCII case mapping, as used for the `.docx` check). -/
def pyLower (s : String) : String :=
  String.mk (s.data.map Char.toLower)

/-- Python `sep.join(parts)`. -/
def joinWith (sep : String) : List String → String
  | [] => ""
  | [s] => s
  | s :: rest => s ++ sep ++ joinWith sep rest

/-- Python `s.replace(pat, rep)` on character lists: replace every
non-overlapping occurrence, scanning left to right.  The program only calls
it with a non-empty `pat`; an empty `pat` is returned unchanged here.
`fuel` bounds the scan (each step consumes at least one character, so
`fuel = s.length` is always enough); it only makes the recursion structural. -/
def pyReplaceList (pat rep : List Char) : Nat → List Char → List Char
  | _, [] => []
  | 0, s => s
  | Nat.succ fuel, c :: rest =>
    if pat ≠ [] ∧ pat.isPrefixOf (c :: rest) then
      rep ++ pyReplaceList pat rep fuel ((c :: rest).drop pat.length)
    else
      c :: pyReplaceList pat rep fuel rest

/-- Python `s.replace(pat, rep)` lifted to `String`. -/
def pyReplace (s pat rep : String) : String :=
  String.mk (pyReplaceList pat.data rep.data s.data.length s.data)

/-- Python `s.replace(pat, rep, 1)`: replace only the first occurrence. -/
def pyReplaceFirstList (pat rep : List Char) : List Char → List Char
  | [] => []
  | c :: rest =>
    if pat.isPrefixOf (c :: rest) then
      rep ++ (c :: rest).drop pat.length
    else
      c :: pyReplaceFirstList pat rep rest

/-- Python `s.replace(pat, rep, 1)` lifted to `String`. -/
def pyReplaceFirst (s pat rep : String) : String :=
  String.mk (pyReplaceFirstList pat.data rep.data s.data)

/-!
## `swcr.py` — CodeFinder
-/

/-- `CodeFinder.is_hidden_file`: `file[0] == '.'` (entry names are non-empty). -/
def is_hidden_file (file : String) : Bool :=
  pyStartsWith file "."

/-- `CodeFinder.should_be_excluded`: some exclude is a prefix of the path. -/
def should_be_excluded (file : String) (excludes : List String) : Bool :=
  excludes.any (fun ex => pyStartsWith file ex)

/-- `CodeFinder.is_code`: the name ends with one of the configured extensions. -/
def is_code (exts : List String) (file : String) : Bool :=
  exts.any (fun ext => pyEndsWith file ext)

/-- `CodeFinder.find`: recursive directory walk.  The filesystem is modelled
by `listDir`, mapping a directory path to its ordered entries
`(name, isFile)`; `fuel` bounds the recursion depth (the walk of a finite
real filesystem terminates; running out of fuel yields the empty suffix,
which is sound for the safety properties proved below).  `abspath` of an
entry inside an absolute directory is the directory path, `/`, and the
entry name. -/
def find (fuel : Nat) (exts excludes : List String)
    (listDir : String → List (String × Bool)) (indir : String) : List String :=
  match fuel with
  | 0 => []
  | Nat.succ fuel' =>
    (listDir indir).flatMap (fun entry =>
      let entry_name := entry.1
      let entry_path := indir ++ "/" ++ entry_name
      if is_hidden_file entry_name || should_be_excluded entry_path excludes then []
      else if entry.2 then
        (if is_code exts entry_name then [entry_path] else [])
      else
        find fuel' exts excludes listDir entry_path)

/-!
## `swcr.py` — line classification and wrapping

`is_blank_line`, `is_comment_line` and `wrap_long_line` appear with
identical bodies in both `PDFCodeWriter` and `DOCXCodeWriter`; they are
defined once here.
-/

/-- `is_blank_line`: `not bool(line.strip())`. -/
def is_blank_line (line : String) : Bool :=
  pyStrip line == ""

/-- `is_comment_line`: the left-stripped line starts with some comment prefix. -/
def is_comment_line (line : String) (comment_chars : List String) : Bool :=
  comment_chars.any (fun cc => pyStartsWith (pyLStrip line) cc)

/-- The chunking loop of `wrap_long_line`: while the line is longer than
`max_chars`, emit the first `max_chars` characters; finally emit the
non-empty remainder.  (With `max_chars = 0` and a non-empty line the Python
loop does not terminate; the program always calls it with `max_chars = 90`.)
`fuel` bounds the loop (each iteration consumes `max_chars ≥ 1` characters,
so `fuel = cs.length` is always enough); it only makes the recursion
structural. -/
def wrapChunks (max_chars : Nat) : Nat → List Char → List (List Char)
  | 0, cs => if cs.isEmpty then [] else [cs]
  | Nat.succ fuel, cs =>
    if max_chars < cs.length ∧ 0 < max_chars then
      cs.take max_chars :: wrapChunks max_chars fuel (cs.drop max_chars)
    else if cs.isEmpty then [] else [cs]

/-- `wrap_long_line(line, max_chars)`: the line itself if short enough,
otherwise the chunking loop. -/
def wrap_long_line (line : String) (max_chars : Nat) : List String :=
  if line.data.length ≤ max_chars then [line]
  else (wrapChunks max_chars line.data.length line.data).map (fun cs => String.mk cs)

/-!
## `swcr.py` — pagination

`split_lines_for_pages` is textually identical in the two writer classes
except that it calls the class's own `count_effective_lines`
(`PDFCodeWriter`: non-blank and non-comment; `DOCXCodeWriter`: non-blank).
The shared body is `split_core`, parameterised by that counting function.
Instance state (`all_lines`, `max_front_pages`, `max_back_pages`) is passed
as arguments.
-/

/-- The hard-coded per-page quota `lines_per_page = 52`. -/
def lines_per_page : Nat := 52

/-- Number of non-blank lines, the quantity the pagination counter tracks. -/
def countNonBlank (lines : List String) : Nat :=
  lines.countP (fun l => !is_blank_line l)

/-- The front-page `while` loop of `split_lines_for_pages`.
State: the unread lines, the current page, its non-blank count, and the
page counter.  Returns the front pages and the unread remainder
(`all_lines[i:]` at loop exit). -/
def frontGo (max_front_pages : Nat) (lines cur : List String) (cnt pc : Nat) :
    List (List String) × List String :=
  match lines with
  | [] => ([], [])
  | l :: rest =>
    if max_front_pages ≤ pc then ([], l :: rest)
    else
      let cur' := cur ++ [l]
      let cnt' := if !is_blank_line l then cnt + 1 else cnt
      if lines_per_page ≤ cnt' ∨ rest = [] then
        let res := frontGo max_front_pages rest [] 0 (pc + 1)
        (cur' :: res.1, res.2)
      else
        frontGo max_front_pages rest cur' cnt' pc

/-- The back-page packing `for` loop (both occurrences in the source):
close a page when its non-blank count reaches the quota; append the final
partial page when non-empty. -/
def packGo (lines cur : List String) (cnt : Nat) : List (List String) :=
  match lines with
  | [] => if cur = [] then [] else [cur]
  | l :: rest =>
    let cur' := cur ++ [l]
    let cnt' := if !is_blank_line l then cnt + 1 else cnt
    if lines_per_page ≤ cnt' then cur' :: packGo rest [] 0
    else packGo rest cur' cnt'

/-- The backward scan locating the cut point: walk the reversed remainder,
counting non-blank lines; return the original index `j` at which the count
reaches `target` (default: last index, as in the source). -/
def backScanGo (target : Nat) : List String → Nat → Nat → Nat → Nat
  | [], _, _, dflt => dflt
  | l :: rest, eff, j, dflt =>
    let eff' := if !is_blank_line l then eff + 1 else eff
    if target ≤ eff' then j else backScanGo target rest eff' (j - 1) dflt

/-- `start_pos` computed by the backward scan over `remaining_lines`. -/
def find_start_pos (target : Nat) (remaining : List String) : Nat :=
  backScanGo target remaining.reverse 0 (remaining.length - 1) (remaining.length - 1)

/-- `split_lines_for_pages`, with the class's `count_effective_lines`
abstracted as `countEff`. -/
def split_core (countEff : List String → Nat) (all_lines : List String)
    (max_front_pages max_back_pages : Nat) :
    List (List String) × List (List String) :=
  if all_lines = [] then ([], [])
  else
    let fr := frontGo max_front_pages all_lines [] 0 0
    let front_pages := fr.1
    let remaining := fr.2
    if remaining = [] then (front_pages, [])
    else
      let remaining_effective := countEff remaining
      if max_back_pages * lines_per_page < remaining_effective then
        let start_pos := find_start_pos (max_back_pages * lines_per_page) remaining
        (front_pages, packGo (remaining.drop start_pos) [] 0)
      else
        (front_pages, packGo remaining [] 0)

namespace PDFCodeWriter

/-- `PDFCodeWriter.count_effective_lines`: non-blank and non-comment lines. -/
def count_effective_lines (lines : List String) (comment_chars : List String) : Nat :=
  lines.countP (fun l => !is_blank_line l && !is_comment_line l comment_chars)

/-- `PDFCodeWriter.split_lines_for_pages`. -/
def split_lines_for_pages (all_lines : List String) (comment_chars : List String)
    (max_front_pages max_back_pages : Nat) :
    List (List String) × List (List String) :=
  split_core (fun ls => count_effective_lines ls comment_chars)
    all_lines max_front_pages max_back_pages

end PDFCodeWriter

namespace DOCXCodeWriter

/-- `DOCXCodeWriter.count_effective_lines`: non-blank lines (the
`comment_chars` parameter is accepted but unused, as in the source). -/
def count_effective_lines (lines : List String) (comment_chars : List String) : Nat :=
  lines.countP (fun l => !is_blank_line l)

/-- `DOCXCodeWriter.split_lines_for_pages`. -/
def split_lines_for_pages (all_lines : List String) (comment_chars : List String)
    (max_front_pages max_back_pages : Nat) :
    List (List String) × List (List String) :=
  split_core (fun ls => count_effective_lines ls comment_chars)
    all_lines max_front_pages max_back_pages

end DOCXCodeWriter

/-!
## `swcr.py` — document assembly

`create_pdf` / `create_docx` draw the front pages, then, when back pages
exist, one ellipsis page followed by the back pages, numbering pages as in
the source.  A drawn page is modelled by `RenderedPage`.
-/

/-- One page emitted by `create_pdf` / `create_docx`. -/
inductive RenderedPage where
  | content (lines : List String) (page_num : Nat)
  | ellipsis (page_num : Nat)
deriving DecidableEq

/-- `PDFCodeWriter.create_pdf`: the sequence of pages drawn on the canvas. -/
def create_pdf (front_pages back_pages : List (List String)) : List RenderedPage :=
  ((List.enumFrom 1 front_pages).map (fun pr => RenderedPage.content pr.2 pr.1)) ++
    (if back_pages = [] then []
     else
       RenderedPage.ellipsis (front_pages.length + 1) ::
         (List.enumFrom (front_pages.length + 2) back_pages).map
           (fun pr => RenderedPage.content pr.2 pr.1))

/-- `DOCXCodeWriter.create_docx`: the same page sequence (page breaks and
library calls aside). -/
def create_docx (front_pages back_pages : List (List String)) : List RenderedPage :=
  ((List.enumFrom 1 front_pages).map (fun pr => RenderedPage.content pr.2 pr.1)) ++
    (if back_pages = [] then []
     else
       RenderedPage.ellipsis (front_pages.length + 1) ::
         (List.enumFrom (front_pages.length + 2) back_pages).map
           (fun pr => RenderedPage.content pr.2 pr.1))

/-!
## `swcr.py` — main
-/

/-- Outcome of `main`: the DOCX-unavailable error path (exit code 1, no
writer constructed, no file written), or a document written from the split
pages.  File discovery and line collection are abstracted: `all_lines`
stands for the writer's collected `all_lines`. -/
inductive MainOutcome where
  | docxError
  | docxWritten (front_pages back_pages : List (List String))
  | pdfWritten (front_pages back_pages : List (List String))
deriving DecidableEq

/-- The process exit status of each outcome (`return 1` / `return 0`). -/
def mainExitCode : MainOutcome → Nat
  | MainOutcome.docxError => 1
  | MainOutcome.docxWritten _ _ => 0
  | MainOutcome.pdfWritten _ _ => 0

namespace swcr

/-- `main`: `is_docx = outfile.lower().endswith('.docx')`; on the DOCX path
with the library unavailable, report the error and return 1 before any
writer is constructed; otherwise split the collected lines and write. -/
def main (docx_available : Bool) (outfile : String) (all_lines : List String)
    (comment_chars : List String) (max_front_pages max_back_pages : Nat) : MainOutcome :=
  let is_docx := pyEndsWith (pyLower outfile) ".docx"
  if is_docx then
    if !docx_available then MainOutcome.docxError
    else
      let fb := DOCXCodeWriter.split_lines_for_pages all_lines comment_chars
        max_front_pages max_back_pages
      MainOutcome.docxWritten fb.1 fb.2
  else
    let fb := PDFCodeWriter.split_lines_for_pages all_lines comment_chars
      max_front_pages max_back_pages
    MainOutcome.pdfWritten fb.1 fb.2

end swcr

/-!
## `generate_manual.py` — Markdown converter
-/

/-- One item appended to the Word document by `create_manual_docx`. -/
inductive DocItem where
  | heading (level : Nat) (text : String)
  | paragraph (text : String)
  | bullet (text : String)
deriving DecidableEq

/-- Converter state: items emitted so far, the `in_code_block` flag and the
accumulated `current_paragraph_lines`. -/
structure ConvState where
  items : List DocItem
  inCode : Bool
  curPara : List String
deriving DecidableEq

/-- Flush `current_paragraph_lines` as one space-joined paragraph, when
non-empty. -/
def flushPara (st : ConvState) : ConvState :=
  if st.curPara = [] then ConvState.mk st.items st.inCode []
  else ConvState.mk (st.items ++ [DocItem.paragraph (joinWith " " st.curPara)]) st.inCode []

/-- The body of the `for line in lines` loop of `create_manual_docx`,
branch for branch. -/
def processLine (st : ConvState) (line : String) : ConvState :=
  if pyStartsWith line "# " then
    let st1 := flushPara st
    ConvState.mk (st1.items ++ [DocItem.heading 0 (pyStrip (pyReplace line "# " ""))])
      st1.inCode st1.curPara
  else if pyStartsWith line "## " then
    let st1 := flushPara st
    ConvState.mk (st1.items ++ [DocItem.heading 1 (pyStrip (pyReplace line "## " ""))])
      st1.inCode st1.curPara
  else if pyStartsWith line "### " then
    let st1 := flushPara st
    ConvState.mk (st1.items ++ [DocItem.heading 2 (pyStrip (pyReplace line "### " ""))])
      st1.inCode st1.curPara
  else if pyStartsWith line "```" then
    let st1 := flushPara st
    if st1.inCode then
      ConvState.mk (st1.items ++ [DocItem.paragraph ""]) false st1.curPara
    else
      ConvState.mk st1.items true st1.curPara
  else if st.inCode then
    ConvState.mk (st.items ++ [DocItem.paragraph line]) st.inCode st.curPara
  else if pyStartsWith line "*   " then
    let st1 := flushPara st
    ConvState.mk (st1.items ++ [DocItem.bullet (pyReplaceFirst line "*   " "- ")])
      st1.inCode st1.curPara
  else if pyStartsWith line "**[图片占位：" then
    let st1 := flushPara st
    ConvState.mk (st1.items ++ [DocItem.paragraph line]) st1.inCode st1.curPara
  else if pyStrip line == "---" then
    let st1 := flushPara st
    ConvState.mk (st1.items ++ [DocItem.paragraph ""]) st1.inCode st1.curPara
  else if !(pyStrip line == "") then
    ConvState.mk st.items st.inCode (st.curPara ++ [pyStrip line])
  else
    flushPara st

/-- `create_manual_docx` on the split lines of the input file: fold the
loop body, then flush the trailing paragraph. -/
def create_manual_docx (lines : List String) : List DocItem :=
  (flushPara (lines.foldl processLine (ConvState.mk [] false []))).items

/-- Modelled from the spec, for comparison: the heading text the claim
describes, namely the line with the leading prefix (alone) removed and
surrounding whitespace stripped. -/
def spec_heading_text (line pre : String) : String :=
  pyStrip (String.mk (line.data.drop pre.data.length))

/-- A small concrete directory tree used to instantiate the `CodeFinder`
theorem: `/a` holds a code file, a hidden directory, an excluded directory
and an ordinary subdirectory. -/
def demoListDir (d : String) : List (String × Bool) :=
  if d = "/a" then [("b.py", true), (".git", false), ("skip", false), ("sub", false)]
  else if d = "/a/sub" then [("c.py", true)]
  else if d = "/a/skip" then [("d.py", true)]
  else []

/-!
## Lemmas about the pagination loops
-/

/-- The front loop consumes its input in order: the flattened pages followed
by the returned remainder reproduce the current page plus the unread lines.
The hypothesis records the loop invariant that a non-empty current page can
only exist below the page cap and with input left (the last line always
flushes). -/
theorem frontGo_flatten (mf : Nat) (lines : List String) :
    ∀ (cur : List String) (cnt pc : Nat), (cur ≠ [] → pc < mf ∧ lines ≠ []) →
      (frontGo mf lines cur cnt pc).1.flatten ++ (frontGo mf lines cur cnt pc).2 =
        cur ++ lines := by
  induction lines with
  | nil =>
    intro cur cnt pc h
    have hc : cur = [] := by
      by_contra hne
      exact (h hne).2 rfl
    simp [frontGo, hc]
  | cons l rest ih =>
    intro cur cnt pc h
    by_cases hpc : mf ≤ pc
    · have hc : cur = [] := by
        by_contra hne
        exact Nat.not_le.mpr (h hne).1 hpc
      simp [frontGo, hpc, hc]
    · by_cases hf : lines_per_page ≤ (if !is_blank_line l then cnt + 1 else cnt) ∨ rest = []
      · have ihh := ih [] 0 (pc + 1) (by intro hx; exact absurd rfl hx)
        simp only [frontGo, if_neg hpc, if_pos hf]
        simp only [List.flatten_cons, List.append_assoc, List.nil_append] at ihh ⊢
        rw [ihh]
        simp
      · have ihh := ih (cur ++ [l]) (if !is_blank_line l then cnt + 1 else cnt) pc
          (by
            intro _
            refine ⟨Nat.lt_of_not_le hpc, ?_⟩
            intro hr
            exact hf (Or.inr hr))
        simp only [frontGo, if_neg hpc, if_neg hf]
        rw [ihh]
        simp

/-- The back-page packing loop loses no lines: its pages flatten to the
current page followed by the input. -/
theorem packGo_flatten (lines : List String) :
    ∀ (cur : List String) (cnt : Nat), (packGo lines cur cnt).flatten = cur ++ lines := by
  induction lines with
  | nil =>
    intro cur cnt
    by_cases hc : cur = [] <;> simp [packGo, hc]
  | cons l rest ih =>
    intro cur cnt
    by_cases hf : lines_per_page ≤ (if !is_blank_line l then cnt + 1 else cnt)
    · simp only [packGo, if_pos hf, List.flatten_cons]
      rw [ih]
      simp
    · simp only [packGo, if_neg hf]
      rw [ih]
      simp

/-- Every page the front loop emits is non-empty. -/
theorem frontGo_nonempty (mf : Nat) (lines : List String) :
    ∀ (cur : List String) (cnt pc : Nat),
      ∀ p ∈ (frontGo mf lines cur cnt pc).1, p ≠ [] := by
  induction lines with
  | nil => intro cur cnt pc p hp; simp [frontGo] at hp
  | cons l rest ih =>
    intro cur cnt pc p hp
    by_cases hpc : mf ≤ pc
    · simp [frontGo, hpc] at hp
    · by_cases hf : lines_per_page ≤ (if !is_blank_line l then cnt + 1 else cnt) ∨ rest = []
      · simp only [frontGo, if_neg hpc, if_pos hf, List.mem_cons] at hp
        rcases hp with hp | hp
        · subst hp; simp
        · exact ih [] 0 (pc + 1) p hp
      · simp only [frontGo, if_neg hpc, if_neg hf] at hp
        exact ih (cur ++ [l]) _ pc p hp

/-- Every page the back-page packing loop emits is non-empty. -/
theorem packGo_nonempty (lines : List String) :
    ∀ (cur : List String) (cnt : Nat), ∀ p ∈ packGo lines cur cnt, p ≠ [] := by
  induction lines with
  | nil =>
    intro cur cnt p hp
    by_cases hc : cur = []
    · simp [packGo, hc] at hp
    · simp only [packGo, if_neg hc, List.mem_singleton] at hp
      subst hp; exact hc
  | cons l rest ih =>
    intro cur cnt p hp
    by_cases hf : lines_per_page ≤ (if !is_blank_line l then cnt + 1 else cnt)
    · simp only [packGo, if_pos hf, List.mem_cons] at hp
      rcases hp with hp | hp
      · subst hp; simp
      · exact ih [] 0 p hp
    · simp only [packGo, if_neg hf] at hp
      exact ih (cur ++ [l]) _ p hp

/-- Counting invariant of the front loop: a page is closed the moment its
non-blank count reaches the quota, so every emitted page except possibly
the last holds exactly `lines_per_page` non-blank lines, and none exceeds
the quota. -/
theorem frontGo_counts (mf : Nat) (lines : List String) :
    ∀ (cur : List String) (cnt pc : Nat),
      cnt = countNonBlank cur → cnt < lines_per_page →
      (∀ p ∈ (frontGo mf lines cur cnt pc).1.dropLast, countNonBlank p = lines_per_page) ∧
      (∀ p ∈ (frontGo mf lines cur cnt pc).1, countNonBlank p ≤ lines_per_page) := by
  induction lines with
  | nil => intro cur cnt pc hcnt hlt; simp [frontGo]
  | cons l rest ih =>
    intro cur cnt pc hcnt hlt
    by_cases hpc : mf ≤ pc
    · simp [frontGo, hpc]
    · have hcnt' : (if !is_blank_line l then cnt + 1 else cnt) = countNonBlank (cur ++ [l]) := by
        simp only [countNonBlank, List.countP_append, List.countP_cons, List.countP_nil]
        by_cases hb : is_blank_line l <;> simp [hb, hcnt, countNonBlank]
      have hle' : (if !is_blank_line l then cnt + 1 else cnt) ≤ lines_per_page := by
        by_cases hb : is_blank_line l <;> simp [hb] <;> omega
      by_cases hf : lines_per_page ≤ (if !is_blank_line l then cnt + 1 else cnt) ∨ rest = []
      · have ihh := ih [] 0 (pc + 1) (by simp [countNonBlank]) (by simp [lines_per_page])
        simp only [frontGo, if_neg hpc, if_pos hf]
        constructor
        · intro p hp
          rcases hres : (frontGo mf rest [] 0 (pc + 1)).1 with _ | ⟨q, qs⟩
          · simp [hres] at hp
          · rw [hres, List.dropLast_cons₂] at hp
            rcases List.mem_cons.mp hp with hp | hp
            · subst hp
              have hrest : rest ≠ [] := by
                intro hr
                subst hr
                simp [frontGo] at hres
              have h52 : lines_per_page ≤ (if !is_blank_line l then cnt + 1 else cnt) := by
                rcases hf with hf | hf
                · exact hf
                · exact absurd hf hrest
              rw [← hcnt']
              omega
            · exact ihh.1 p (by rw [hres]; exact hp)
        · intro p hp
          rcases List.mem_cons.mp hp with hp | hp
          · subst hp; rw [← hcnt']; exact hle'
          · exact ihh.2 p hp
      · have hlt' : (if !is_blank_line l then cnt + 1 else cnt) < lines_per_page := by
          rcases Nat.lt_or_ge (if !is_blank_line l then cnt + 1 else cnt) lines_per_page with h | h
          · exact h
          · exact absurd (Or.inl h) hf
        have ihh := ih (cur ++ [l]) (if !is_blank_line l then cnt + 1 else cnt) pc hcnt' hlt'
        simp only [frontGo, if_neg hpc, if_neg hf]
        exact ihh

/-- The front loop emits at most `max_front_pages - pc` further pages. -/
theorem frontGo_length (mf : Nat) (lines : List String) :
    ∀ (cur : List String) (cnt pc : Nat),
      (frontGo mf lines cur cnt pc).1.length ≤ mf - pc := by
  induction lines with
  | nil => intro cur cnt pc; simp [frontGo]
  | cons l rest ih =>
    intro cur cnt pc
    by_cases hpc : mf ≤ pc
    · simp [frontGo, hpc]
    · by_cases hf : lines_per_page ≤ (if !is_blank_line l then cnt + 1 else cnt) ∨ rest = []
      · simp only [frontGo, if_neg hpc, if_pos hf, List.length_cons]
        have := ih [] 0 (pc + 1)
        omega
      · simp only [frontGo, if_neg hpc, if_neg hf]
        exact ih (cur ++ [l]) _ pc

/-- In every branch of `split_lines_for_pages`, the front pages are exactly
the output of the front loop. -/
theorem split_core_front (countEff : List String → Nat) (all_lines : List String)
    (mf mb : Nat) :
    (split_core countEff all_lines mf mb).1 = (frontGo mf all_lines [] 0 0).1 := by
  by_cases hall : all_lines = []
  · subst hall; simp [split_core, frontGo]
  · by_cases hrem : (frontGo mf all_lines [] 0 0).2 = []
    · simp [split_core, hall, hrem]
    · by_cases hbig : mb * lines_per_page < countEff (frontGo mf all_lines [] 0 0).2 <;>
        simp [split_core, hall, hrem, hbig]

/-- The output of `split_lines_for_pages`, flattened, is a prefix of the
input (the front pages) and a suffix of the input (the back pages), the
prefix ending no later than the suffix begins: every input line lands in
exactly one page, in order, except those in the elided middle. -/
theorem split_core_partition (countEff : List String → Nat) (all_lines : List String)
    (mf mb : Nat) :
    ∃ k m, k ≤ m ∧
      (split_core countEff all_lines mf mb).1.flatten = all_lines.take k ∧
      (split_core countEff all_lines mf mb).2.flatten = all_lines.drop m := by
  by_cases hall : all_lines = []
  · exact ⟨0, 0, Nat.le_refl 0, by simp [split_core, hall], by simp [split_core, hall]⟩
  · rcases hfg : frontGo mf all_lines [] 0 0 with ⟨fp, rem⟩
    have hflat : fp.flatten ++ rem = all_lines := by
      have := frontGo_flatten mf all_lines [] 0 0 (by intro hx; exact absurd rfl hx)
      rw [hfg] at this
      simpa using this
    have htake : all_lines.take fp.flatten.length = fp.flatten := by
      rw [← hflat]; exact List.take_left' rfl
    have hdrop : all_lines.drop fp.flatten.length = rem := by
      rw [← hflat]; exact List.drop_left' rfl
    by_cases hrem : rem = []
    · refine ⟨fp.flatten.length, all_lines.length, ?_, ?_, ?_⟩
      · have : all_lines.length = fp.flatten.length + rem.length := by
          rw [← hflat, List.length_append]
        omega
      · simp only [split_core, if_neg hall, hfg, if_pos hrem]
        exact htake.symm
      · simp only [split_core, if_neg hall, hfg, if_pos hrem, List.flatten_nil,
          List.drop_length]
    · by_cases hbig : mb * lines_per_page < countEff rem
      · refine ⟨fp.flatten.length,
          fp.flatten.length + find_start_pos (mb * lines_per_page) rem,
          Nat.le_add_right _ _, ?_, ?_⟩
        · simp only [split_core, if_neg hall, hfg, if_neg hrem, if_pos hbig]
          exact htake.symm
        · simp only [split_core, if_neg hall, hfg, if_neg hrem, if_pos hbig]
          rw [packGo_flatten, List.nil_append, ← hdrop, List.drop_drop]
      · refine ⟨fp.flatten.length, fp.flatten.length, Nat.le_refl _, ?_, ?_⟩
        · simp only [split_core, if_neg hall, hfg, if_neg hrem, if_neg hbig]
          exact htake.symm
        · simp only [split_core, if_neg hall, hfg, if_neg hrem, if_neg hbig]
          rw [packGo_flatten, List.nil_append, hdrop]

/-- Every page group either loop of `split_lines_for_pages` appends is
non-empty. -/
theorem split_core_nonempty (countEff : List String → Nat) (all_lines : List String)
    (mf mb : Nat) :
    ∀ p ∈ (split_core countEff all_lines mf mb).1 ++ (split_core countEff all_lines mf mb).2,
      p ≠ [] := by
  intro p hp
  rcases List.mem_append.mp hp with hp | hp
  · rw [split_core_front] at hp
    exact frontGo_nonempty mf all_lines [] 0 0 p hp
  · by_cases hall : all_lines = []
    · simp [split_core, hall] at hp
    · by_cases hrem : (frontGo mf all_lines [] 0 0).2 = []
      · simp [split_core, hall, hrem] at hp
      · by_cases hbig : mb * lines_per_page < countEff (frontGo mf all_lines [] 0 0).2
        · simp only [split_core, if_neg hall, if_neg hrem, if_pos hbig] at hp
          exact packGo_nonempty _ [] 0 p hp
        · simp only [split_core, if_neg hall, if_neg hrem, if_neg hbig] at hp
          exact packGo_nonempty _ [] 0 p hp

/-- Quota facts lifted to `split_lines_for_pages`: every front page but the
last holds exactly the quota of non-blank lines, no front page exceeds it,
and at most `max_front_pages` front pages exist. -/
theorem split_core_front_quota (countEff : List String → Nat) (all_lines : List String)
    (mf mb : Nat) :
    (∀ p ∈ (split_core countEff all_lines mf mb).1.dropLast,
        countNonBlank p = lines_per_page) ∧
    (∀ p ∈ (split_core countEff all_lines mf mb).1, countNonBlank p ≤ lines_per_page) ∧
    (split_core countEff all_lines mf mb).1.length ≤ mf := by
  rw [split_core_front]
  have hc := frontGo_counts mf all_lines [] 0 0 (by simp [countNonBlank]) (by decide)
  have hl := frontGo_length mf all_lines [] 0 0
  exact ⟨hc.1, hc.2, by omega⟩

/-- Page count of the assembled PDF: the front pages, plus an ellipsis page
and the back pages exactly when back pages exist. -/
theorem create_pdf_length (f b : List (List String)) :
    (create_pdf f b).length = f.length + (if b = [] then 0 else 1 + b.length) := by
  by_cases hb : b = [] <;>
    simp [create_pdf, hb, List.enumFrom_length] <;> omega

/-- Page count of the assembled DOCX, identical in shape. -/
theorem create_docx_length (f b : List (List String)) :
    (create_docx f b).length = f.length + (if b = [] then 0 else 1 + b.length) := by
  by_cases hb : b = [] <;>
    simp [create_docx, hb, List.enumFrom_length] <;> omega

/-- The pagination counter (non-blank lines) decomposes as the PDF writer's
`count_effective_lines` (non-blank, non-comment) plus the non-blank comment
lines: the two classifications differ exactly on non-blank comment lines. -/
theorem countNonBlank_decompose (lines cc : List String) :
    countNonBlank lines = PDFCodeWriter.count_effective_lines lines cc +
      lines.countP (fun l => !is_blank_line l && is_comment_line l cc) := by
  induction lines with
  | nil => simp [countNonBlank, PDFCodeWriter.count_effective_lines]
  | cons l rest ih =>
    simp only [countNonBlank, PDFCodeWriter.count_effective_lines, List.countP_cons] at ih ⊢
    by_cases hb : is_blank_line l <;> by_cases hc : is_comment_line l cc <;>
      simp [hb, hc, ih] <;> omega

/-!
## Lemmas about long-line wrapping
-/

/-- The chunking loop loses no characters. -/
theorem wrapChunks_flatten (max_chars : Nat) :
    ∀ (fuel : Nat) (cs : List Char), cs.length ≤ fuel →
      (wrapChunks max_chars fuel cs).flatten = cs := by
  intro fuel
  induction fuel with
  | zero =>
    intro cs hle
    have : cs = [] := List.eq_nil_of_length_eq_zero (Nat.le_zero.mp hle)
    simp [wrapChunks, this]
  | succ fuel ih =>
    intro cs hle
    by_cases hlt : max_chars < cs.length ∧ 0 < max_chars
    · simp only [wrapChunks, if_pos hlt, List.flatten_cons]
      rw [ih (cs.drop max_chars) (by simp; omega)]
      exact List.take_append_drop max_chars cs
    · simp only [wrapChunks, if_neg hlt]
      by_cases hemp : cs.isEmpty
      · simp [hemp, List.isEmpty_iff.mp hemp]
      · simp [hemp]

/-- No emitted chunk is longer than `max_chars` (for a positive
`max_chars`). -/
theorem wrapChunks_chunk_le (max_chars : Nat) :
    ∀ (fuel : Nat) (cs : List Char), cs.length ≤ fuel → 0 < max_chars →
      ∀ chunk ∈ wrapChunks max_chars fuel cs, chunk.length ≤ max_chars := by
  intro fuel
  induction fuel with
  | zero =>
    intro cs hle hpos chunk hchunk
    have : cs = [] := List.eq_nil_of_length_eq_zero (Nat.le_zero.mp hle)
    simp [wrapChunks, this] at hchunk
  | succ fuel ih =>
    intro cs hle hpos chunk hchunk
    by_cases hlt : max_chars < cs.length ∧ 0 < max_chars
    · simp only [wrapChunks, if_pos hlt, List.mem_cons] at hchunk
      rcases hchunk with hchunk | hchunk
      · subst hchunk; simp
      · exact ih (cs.drop max_chars) (by simp; omega) hpos chunk hchunk
    · simp only [wrapChunks, if_neg hlt] at hchunk
      have hcs : cs.length ≤ max_chars := by
        rcases Nat.lt_or_ge max_chars cs.length with h | h
        · exact absurd ⟨h, hpos⟩ hlt
        · exact h
      by_cases hemp : cs.isEmpty
      · simp [hemp] at hchunk
      · simp only [if_neg hemp, List.mem_singleton] at hchunk
        subst hchunk; exact hcs

/-- The number of chunks is the ceiling `⌈cs.length / max_chars⌉` (for a
positive `max_chars`). -/
theorem wrapChunks_length (max_chars : Nat) :
    ∀ (fuel : Nat) (cs : List Char), cs.length ≤ fuel → 0 < max_chars →
      (wrapChunks max_chars fuel cs).length = (cs.length + max_chars - 1) / max_chars := by
  intro fuel
  induction fuel with
  | zero =>
    intro cs hle hpos
    have hnil : cs = [] := List.eq_nil_of_length_eq_zero (Nat.le_zero.mp hle)
    subst hnil
    have h0 : (max_chars - 1) / max_chars = 0 :=
      Nat.div_eq_of_lt (by omega)
    simp [wrapChunks, h0]
  | succ fuel ih =>
    intro cs hle hpos
    by_cases hlt : max_chars < cs.length ∧ 0 < max_chars
    · simp only [wrapChunks, if_pos hlt, List.length_cons]
      rw [ih (cs.drop max_chars) (by simp; omega) hpos]
      have harg : cs.length + max_chars - 1 =
          ((cs.drop max_chars).length + max_chars - 1) + max_chars := by
        simp; omega
      rw [harg, Nat.add_div_right _ hpos]
    · have hcs : cs.length ≤ max_chars := by
        rcases Nat.lt_or_ge max_chars cs.length with h | h
        · exact absurd ⟨h, hpos⟩ hlt
        · exact h
      simp only [wrapChunks, if_neg hlt]
      by_cases hemp : cs.isEmpty
      · have hnil : cs = [] := List.isEmpty_iff.mp hemp
        subst hnil
        have h0 : (max_chars - 1) / max_chars = 0 :=
          Nat.div_eq_of_lt (by omega)
        simp [h0]
      · rw [if_neg hemp]
        have hne : cs ≠ [] := by
          intro h; exact hemp (List.isEmpty_iff.mpr h)
        have hlen : 0 < cs.length := List.length_pos.mpr hne
        rw [List.length_singleton]
        symm
        apply Nat.div_eq_of_lt_le <;> omega

/-- `String.join` concatenates the character data. -/
theorem foldl_append_data (l : List String) :
    ∀ acc : String, (l.foldl (fun r s => r ++ s) acc).data =
      acc.data ++ (l.map String.data).flatten := by
  induction l with
  | nil => intro acc; simp
  | cons s rest ih =>
    intro acc
    simp only [List.foldl_cons, List.map_cons, List.flatten_cons]
    rw [ih (acc ++ s), String.data_append, List.append_assoc]

/-- The data of a joined string list is the flattened data. -/
theorem join_data (l : List String) :
    (String.join l).data = (l.map String.data).flatten := by
  rw [String.join, foldl_append_data]
  rfl

/-!
## Lemmas about the directory walk and the converter
-/

/-- A suffix of the entry name is a suffix of the whole path. -/
theorem pyEndsWith_append (a b pat : String) (h : pyEndsWith b pat = true) :
    pyEndsWith (a ++ b) pat = true := by
  rw [pyEndsWith, List.isSuffixOf_iff_suffix] at h ⊢
  rw [String.data_append]
  obtain ⟨t, ht⟩ := h
  exact ⟨a.data ++ t, by rw [List.append_assoc, ht]⟩

/-- `joinWith` on a list with at least two elements. -/
theorem joinWith_cons (sep a : String) (l : List String) (h : l ≠ []) :
    joinWith sep (a :: l) = a ++ sep ++ joinWith sep l := by
  cases l with
  | nil => exact absurd rfl h
  | cons b t => rfl

/-- `flushPara` keeps the code-block flag. -/
theorem flushPara_inCode (st : ConvState) : (flushPara st).inCode = st.inCode := by
  by_cases h : st.curPara = [] <;> simp [flushPara, h]

/-- `flushPara` empties the paragraph accumulator. -/
theorem flushPara_curPara (st : ConvState) : (flushPara st).curPara = [] := by
  by_cases h : st.curPara = [] <;> simp [flushPara, h]

/-- A line starting with `## ` does not start with `# `. -/
theorem startsWith_h2_not_h1 (line : String) (h : pyStartsWith line "## " = true) :
    pyStartsWith line "# " = false := by
  rw [pyStartsWith, List.isPrefixOf_iff_prefix] at h
  obtain ⟨t, ht⟩ := h
  rw [pyStartsWith, ← ht]
  rfl

/-- A line starting with `### ` does not start with `# ` nor `## `. -/
theorem startsWith_h3_not_h1_h2 (line : String) (h : pyStartsWith line "### " = true) :
    pyStartsWith line "# " = false ∧ pyStartsWith line "## " = false := by
  rw [pyStartsWith, List.isPrefixOf_iff_prefix] at h
  obtain ⟨t, ht⟩ := h
  constructor <;> rw [pyStartsWith, ← ht] <;> rfl

/-!
## Claim theorems
-/

/-- C7: `is_blank_line` holds iff `line.strip()` is empty, `is_comment_line`
holds iff the left-stripped line starts with some configured prefix, and
both are pure functions of the line and the prefix list: equal inputs give
equal results. -/
theorem blank_comment_classification_pure (line : String) (cc : List String) :
    (is_blank_line line = true ↔ pyStrip line = "") ∧
    (is_comment_line line cc = true ↔
      ∃ c ∈ cc, pyStartsWith (pyLStrip line) c = true) ∧
    (∀ (line2 : String) (cc2 : List String), line = line2 → cc = cc2 →
      is_blank_line line = is_blank_line line2 ∧
        is_comment_line line cc = is_comment_line line2 cc2) := by
  refine ⟨?_, ?_, ?_⟩
  · rw [is_blank_line]
    exact beq_iff_eq
  · rw [is_comment_line]
    exact List.any_eq_true
  · intro line2 cc2 h1 h2
    subst h1; subst h2
    exact ⟨rfl, rfl⟩

/-- C7 witness: the purity clause applied at a concrete line and prefix
list. -/
theorem blank_comment_classification_pure_witness :
    is_blank_line " x" = is_blank_line " x" ∧
      is_comment_line " x" ["#"] = is_comment_line " x" ["#"] :=
  (blank_comment_classification_pure " x" ["#"]).2.2 " x" ["#"] rfl rfl

/-- C8: when the output file name ends (case-insensitively) in `.docx` and
the python-docx library is unavailable, `main` takes the error path — no
writer is constructed, no document is produced — and the exit status is 1. -/
theorem main_docx_unavailable (docx_available : Bool) (outfile : String)
    (all_lines comment_chars : List String) (mf mb : Nat)
    (hdocx : pyEndsWith (pyLower outfile) ".docx" = true)
    (hnav : docx_available = false) :
    swcr.main docx_available outfile all_lines comment_chars mf mb = MainOutcome.docxError ∧
      mainExitCode (swcr.main docx_available outfile all_lines comment_chars mf mb) = 1 := by
  subst hnav
  rw [swcr.main]
  simp only [hdocx, if_pos]
  exact ⟨rfl, rfl⟩

/-- C8 witness: the theorem applied at a mixed-case `.DocX` output file. -/
theorem main_docx_unavailable_witness :
    swcr.main false "a.DocX" ["x"] ["#"] 30 30 = MainOutcome.docxError ∧
      mainExitCode (swcr.main false "a.DocX" ["x"] ["#"] 30 30) = 1 :=
  main_docx_unavailable false "a.DocX" ["x"] ["#"] 30 30 (by decide) rfl

/-- C2: for both writers, the flattened front pages are a prefix of the
collected lines and the flattened back pages are a suffix beginning no
earlier than the prefix ends: every line lands in exactly one page group,
in the original order, except the lines of the elided middle section. -/
theorem split_lines_partition (all_lines comment_chars : List String) (mf mb : Nat) :
    (∃ k m, k ≤ m ∧
      (PDFCodeWriter.split_lines_for_pages all_lines comment_chars mf mb).1.flatten =
        all_lines.take k ∧
      (PDFCodeWriter.split_lines_for_pages all_lines comment_chars mf mb).2.flatten =
        all_lines.drop m) ∧
    (∃ k m, k ≤ m ∧
      (DOCXCodeWriter.split_lines_for_pages all_lines comment_chars mf mb).1.flatten =
        all_lines.take k ∧
      (DOCXCodeWriter.split_lines_for_pages all_lines comment_chars mf mb).2.flatten =
        all_lines.drop m) :=
  ⟨split_core_partition _ all_lines mf mb, split_core_partition _ all_lines mf mb⟩

/-- C10: every page group appended by either writer's
`split_lines_for_pages` is non-empty. -/
theorem split_lines_pages_nonempty (all_lines comment_chars : List String) (mf mb : Nat) :
    (∀ p ∈ (PDFCodeWriter.split_lines_for_pages all_lines comment_chars mf mb).1 ++
        (PDFCodeWriter.split_lines_for_pages all_lines comment_chars mf mb).2, p ≠ []) ∧
    (∀ p ∈ (DOCXCodeWriter.split_lines_for_pages all_lines comment_chars mf mb).1 ++
        (DOCXCodeWriter.split_lines_for_pages all_lines comment_chars mf mb).2, p ≠ []) :=
  ⟨split_core_nonempty _ all_lines mf mb, split_core_nonempty _ all_lines mf mb⟩

/-- C10 witness: the theorem applied to a one-line input, whose single page
is non-empty. -/
theorem split_lines_pages_nonempty_witness : (["a"] : List String) ≠ [] :=
  (split_lines_pages_nonempty ["a"] [] 5 5).1 ["a"] (by decide)

/-- C3: in the PDF writer, a front page is closed exactly when its running
non-blank count reaches the fixed threshold 52 (`lines_per_page`) or the
input ends: every front page except possibly the last has exactly 52
non-blank lines, none has more, and at most `max_front_pages` front pages
are produced. -/
theorem front_pages_quota (all_lines comment_chars : List String) (mf mb : Nat) :
    (∀ p ∈ (PDFCodeWriter.split_lines_for_pages all_lines comment_chars mf mb).1.dropLast,
        countNonBlank p = 52) ∧
    (∀ p ∈ (PDFCodeWriter.split_lines_for_pages all_lines comment_chars mf mb).1,
        countNonBlank p ≤ 52) ∧
    (PDFCodeWriter.split_lines_for_pages all_lines comment_chars mf mb).1.length ≤ mf :=
  split_core_front_quota _ all_lines mf mb

/-- C3 witness: on 53 identical non-blank lines the first (non-last) front
page holds exactly 52 non-blank lines. -/
theorem front_pages_quota_witness : countNonBlank (List.replicate 52 "x") = 52 :=
  (front_pages_quota (List.replicate 53 "x") [] 30 30).1 (List.replicate 52 "x") (by decide)

/-- C1 (amended): the number of emitted page groups is the front-page count
plus, when back pages exist, one ellipsis page plus the back-page count,
and the front-page count alone when there are no back pages — the ellipsis
page accompanies back pages whether or not any line was actually elided. -/
theorem total_pages_emitted (all_lines comment_chars : List String) (mf mb : Nat) :
    ((create_pdf (PDFCodeWriter.split_lines_for_pages all_lines comment_chars mf mb).1
        (PDFCodeWriter.split_lines_for_pages all_lines comment_chars mf mb).2).length =
      (PDFCodeWriter.split_lines_for_pages all_lines comment_chars mf mb).1.length +
        (if (PDFCodeWriter.split_lines_for_pages all_lines comment_chars mf mb).2 = []
         then 0
         else 1 +
          (PDFCodeWriter.split_lines_for_pages all_lines comment_chars mf mb).2.length)) ∧
    ((create_docx (DOCXCodeWriter.split_lines_for_pages all_lines comment_chars mf mb).1
        (DOCXCodeWriter.split_lines_for_pages all_lines comment_chars mf mb).2).length =
      (DOCXCodeWriter.split_lines_for_pages all_lines comment_chars mf mb).1.length +
        (if (DOCXCodeWriter.split_lines_for_pages all_lines comment_chars mf mb).2 = []
         then 0
         else 1 +
          (DOCXCodeWriter.split_lines_for_pages all_lines comment_chars mf mb).2.length)) :=
  ⟨create_pdf_length _ _, create_docx_length _ _⟩

/-- C1 counterexample: on 53 non-blank lines with `max_front_pages = 1`,
`max_back_pages = 1`, nothing is elided — the flattened page groups
reproduce the entire input — yet `create_pdf` emits 3 page groups (one
front page, an ellipsis page, one back page), not the front-page count 1. -/
theorem total_pages_counterexample :
    ((PDFCodeWriter.split_lines_for_pages (List.replicate 53 "x") ["#"] 1 1).1.flatten ++
        (PDFCodeWriter.split_lines_for_pages (List.replicate 53 "x") ["#"] 1 1).2.flatten =
      List.replicate 53 "x") ∧
    (create_pdf (PDFCodeWriter.split_lines_for_pages (List.replicate 53 "x") ["#"] 1 1).1
        (PDFCodeWriter.split_lines_for_pages (List.replicate 53 "x") ["#"] 1 1).2).length = 3 ∧
    (PDFCodeWriter.split_lines_for_pages (List.replicate 53 "x") ["#"] 1 1).1.length = 1 ∧
    (3 : Nat) ≠ 1 :=
  ⟨by decide, by decide, by decide, by decide⟩

/-- C4 counterexample: the non-blank comment line `"# c"` is counted toward
the page fill quota during pagination — 53 such lines close a full page of
52 and spill onto a second front page — although `count_effective_lines`
counts it as 0: the two classifications are not identical. -/
theorem effective_line_counterexample :
    is_blank_line "# c" = false ∧
    PDFCodeWriter.count_effective_lines ["# c"] ["#"] = 0 ∧
    (PDFCodeWriter.split_lines_for_pages (List.replicate 53 "# c") ["#"] 30 30).1.length = 2 :=
  ⟨by decide, by decide, by decide⟩

/-- C4 (amended): during pagination a line is counted toward the fill quota
iff it is non-blank (pages close at 52 by the non-blank count), while
`count_effective_lines` counts only non-blank non-comment lines; the two
counts differ by exactly the number of non-blank comment lines. -/
theorem effective_line_classification (lines cc : List String) (mf mb : Nat) :
    (countNonBlank lines = PDFCodeWriter.count_effective_lines lines cc +
      lines.countP (fun l => !is_blank_line l && is_comment_line l cc)) ∧
    (∀ p ∈ (PDFCodeWriter.split_lines_for_pages lines cc mf mb).1.dropLast,
      countNonBlank p = 52) :=
  ⟨countNonBlank_decompose lines cc, (split_core_front_quota _ lines mf mb).1⟩

/-- C4 witness: the quota clause applied to 53 non-blank lines. -/
theorem effective_line_classification_witness : countNonBlank (List.replicate 52 "y") = 52 :=
  (effective_line_classification (List.replicate 53 "y") ["#"] 30 30).2
    (List.replicate 52 "y") (by decide)

/-- C5 counterexample: on the empty line, `wrap_long_line` returns one
fragment `[""]`, but `ceil(0 / 90) = 0`: the fragment count is not
`ceil(L / max_chars)` for `L = 0`. -/
theorem wrap_long_line_counterexample :
    (wrap_long_line "" 90).length = 1 ∧
    ("".data.length + 90 - 1) / 90 = 0 ∧
    (wrap_long_line "" 90).length ≠ ("".data.length + 90 - 1) / 90 :=
  ⟨by decide, by decide, by decide⟩

/-- C5 (amended): for positive `max_chars`, `wrap_long_line` returns
`ceil(L / max_chars)` fragments when `L > 0` and a single empty fragment
when `L = 0`; every fragment has at most `max_chars` characters and the
in-order concatenation of the fragments is the original line. -/
theorem wrap_long_line_spec (line : String) (max_chars : Nat) (hpos : 0 < max_chars) :
    ((wrap_long_line line max_chars).length =
      if line.data.length = 0 then 1
      else (line.data.length + max_chars - 1) / max_chars) ∧
    (∀ frag ∈ wrap_long_line line max_chars, frag.data.length ≤ max_chars) ∧
    String.join (wrap_long_line line max_chars) = line := by
  by_cases hshort : line.data.length ≤ max_chars
  · refine ⟨?_, ?_, ?_⟩
    · rw [wrap_long_line, if_pos hshort]
      by_cases h0 : line.data.length = 0
      · simp [h0]
      · rw [if_neg h0, List.length_singleton]
        symm
        apply Nat.div_eq_of_lt_le <;> omega
    · intro frag hfrag
      rw [wrap_long_line, if_pos hshort, List.mem_singleton] at hfrag
      subst hfrag
      exact hshort
    · rw [wrap_long_line, if_pos hshort]
      apply String.ext
      rw [join_data]
      simp
  · refine ⟨?_, ?_, ?_⟩
    · rw [wrap_long_line, if_neg hshort, List.length_map]
      rw [wrapChunks_length max_chars line.data.length line.data (Nat.le_refl _) hpos]
      rw [if_neg (by omega)]
    · intro frag hfrag
      rw [wrap_long_line, if_neg hshort, List.mem_map] at hfrag
      obtain ⟨cs, hcs, hfrag⟩ := hfrag
      subst hfrag
      exact wrapChunks_chunk_le max_chars line.data.length line.data (Nat.le_refl _) hpos cs hcs
    · rw [wrap_long_line, if_neg hshort]
      apply String.ext
      rw [join_data, List.map_map]
      have hfun : (String.data ∘ fun cs => String.mk cs) = id := funext (fun _ => rfl)
      rw [hfun, List.map_id,
        wrapChunks_flatten max_chars line.data.length line.data (Nat.le_refl _)]

/-- C5 witness: the theorem applied at `"abcde"` with `max_chars = 2`. -/
theorem wrap_long_line_spec_witness :
    String.join (wrap_long_line "abcde" 2) = "abcde" :=
  (wrap_long_line_spec "abcde" 2 (by decide)).2.2

/-- C6: every path returned by `CodeFinder.find` ends with one of the
configured extensions, starts with no configured exclude prefix, and all
its entry-name components below the input directory are non-hidden: no
excluded or hidden path appears in the result. -/
theorem find_result_paths (fuel : Nat) (exts excludes : List String)
    (listDir : String → List (String × Bool)) :
    ∀ (indir : String), ∀ p ∈ find fuel exts excludes listDir indir,
      (∃ ext ∈ exts, pyEndsWith p ext = true) ∧
      (∀ ex ∈ excludes, pyStartsWith p ex = false) ∧
      (∃ comps : List String, comps ≠ [] ∧ p = indir ++ "/" ++ joinWith "/" comps ∧
        ∀ c ∈ comps, is_hidden_file c = false) := by
  induction fuel with
  | zero => intro indir p hp; simp [find] at hp
  | succ fuel ih =>
    intro indir p hp
    rw [find, List.mem_flatMap] at hp
    obtain ⟨entry, hentry, hp⟩ := hp
    by_cases hskip : (is_hidden_file entry.1 ||
        should_be_excluded (indir ++ "/" ++ entry.1) excludes) = true
    · rw [if_pos hskip] at hp
      simp at hp
    · rw [if_neg hskip] at hp
      have hhid : is_hidden_file entry.1 = false := by
        rcases Bool.or_eq_false_iff.mp (Bool.not_eq_true _ |>.mp hskip) with ⟨h1, _⟩
        exact h1
      have hexc : should_be_excluded (indir ++ "/" ++ entry.1) excludes = false := by
        rcases Bool.or_eq_false_iff.mp (Bool.not_eq_true _ |>.mp hskip) with ⟨_, h2⟩
        exact h2
      by_cases hfile : entry.2 = true
      · rw [if_pos hfile] at hp
        by_cases hcode : is_code exts entry.1 = true
        · rw [if_pos hcode, List.mem_singleton] at hp
          subst hp
          refine ⟨?_, ?_, ?_⟩
          · obtain ⟨ext, hext, hend⟩ := List.any_eq_true.mp hcode
            exact ⟨ext, hext, pyEndsWith_append (indir ++ "/") entry.1 ext hend⟩
          · intro ex hex
            rw [should_be_excluded, List.any_eq_false] at hexc
            exact Bool.not_eq_true _ |>.mp (hexc ex hex)
          · exact ⟨[entry.1], by simp, rfl, by
              intro c hc
              rw [List.mem_singleton] at hc
              subst hc
              exact hhid⟩
        · rw [if_neg hcode] at hp
          simp at hp
      · rw [if_neg hfile] at hp
        obtain ⟨hends, hexcl, comps, hcne, hpeq, hcomps⟩ := ih (indir ++ "/" ++ entry.1) p hp
        refine ⟨hends, hexcl, entry.1 :: comps, by simp, ?_, ?_⟩
        · rw [hpeq, joinWith_cons "/" entry.1 comps hcne]
          simp [String.append_assoc]
        · intro c hc
          rcases List.mem_cons.mp hc with hc | hc
          · subst hc; exact hhid
          · exact hcomps c hc

/-- C6 witness: the theorem applied to the demo tree at the collected file
`/a/b.py`. -/
theorem find_result_paths_witness :
    ∃ ext ∈ (["py"] : List String), pyEndsWith "/a/b.py" ext = true :=
  (find_result_paths 2 ["py"] ["/a/skip"] demoListDir "/a" "/a/b.py" (by decide)).1

/-- C9 (amended): a line beginning with `# `, `## `, or `### ` first
flushes the accumulated paragraph and then emits a heading at level 0, 1,
or 2 respectively, whose text is the line with every occurrence of that
prefix substring removed and surrounding whitespace stripped. -/
theorem heading_lines_conversion (st : ConvState) (line : String) :
    (pyStartsWith line "# " = true → processLine st line =
      ConvState.mk
        ((flushPara st).items ++ [DocItem.heading 0 (pyStrip (pyReplace line "# " ""))])
        st.inCode []) ∧
    (pyStartsWith line "## " = true → processLine st line =
      ConvState.mk
        ((flushPara st).items ++ [DocItem.heading 1 (pyStrip (pyReplace line "## " ""))])
        st.inCode []) ∧
    (pyStartsWith line "### " = true → processLine st line =
      ConvState.mk
        ((flushPara st).items ++ [DocItem.heading 2 (pyStrip (pyReplace line "### " ""))])
        st.inCode []) := by
  refine ⟨?_, ?_, ?_⟩
  · intro h
    simp only [processLine, h, if_true]
    rw [flushPara_inCode, flushPara_curPara]
  · intro h
    have h1 : pyStartsWith line "# " = false := startsWith_h2_not_h1 line h
    simp only [processLine, h, h1, Bool.false_eq_true, if_false, if_true]
    rw [flushPara_inCode, flushPara_curPara]
  · intro h
    obtain ⟨h1, h2⟩ := startsWith_h3_not_h1_h2 line h
    simp only [processLine, h, h1, h2, Bool.false_eq_true, if_false, if_true]
    rw [flushPara_inCode, flushPara_curPara]

/-- C9 counterexample: on the input line `"# a # b"` the converter emits a
level-0 heading with text `"a b"` — `replace` removes every occurrence of
`"# "`, not only the leading prefix, which would give `"a # b"`. -/
theorem heading_lines_counterexample :
    create_manual_docx ["# a # b"] = [DocItem.heading 0 "a b"] ∧
    spec_heading_text "# a # b" "# " = "a # b" ∧
    ("a b" : String) ≠ "a # b" :=
  ⟨by decide, by decide, by decide⟩

/-- C9 witness: the theorem applied to a `## ` line with one accumulated
paragraph line. -/
theorem heading_lines_conversion_witness :
    processLine (ConvState.mk [] false ["x"]) "## Title" =
      ConvState.mk [DocItem.paragraph "x", DocItem.heading 1 "Title"] false [] :=
  ((heading_lines_conversion (ConvState.mk [] false ["x"]) "## Title").2.1
    (by decide)).trans (by decide)
